import Mathlib

/-
Verification development for src/Fig5/Rigid_scallop.py: a boundary-element
simulation of a two-filament rigid scallop swimmer.

Modelling conventions (shallow embedding):
* Python/numpy floating-point arithmetic is modelled over the real numbers ℝ.
* numpy arrays become functions out of Fin types; the (3,N)-vectorised
  stokeslet_reg is embedded per source point.
* scipy.linalg.solve on a nonsingular square system returns its unique
  solution; it is modelled as multiplication of the right-hand side by the
  matrix inverse, which coincides with that unique solution whenever the
  matrix is invertible.
* File output is modelled as an explicit event trace (open / write / close).
-/

noncomputable section

namespace Scallop

open Real Finset

/-- Constructor parameters of TwoFilamentScallop (Rigid_scallop.py, __init__).
The fields nodes/weights are Modelled from the spec: they stand for the
canonical Gauss-Legendre node/weight table returned by gaussxw(nfine)
(gaussxw.py is imported by the source but is not part of src/); the spec
treats that table as an immutable process-wide constant, carried here as
data of the configuration.  N is the Python int segment count, modelled as ℕ. -/
structure Params where
  theta_A : ℝ
  theta_0 : ℝ
  N : ℕ
  L : ℝ
  dt : ℝ
  T : ℝ
  tau : ℝ
  delta : ℝ
  nfine : ℕ
  nodes : Fin nfine → ℝ
  weights : Fin nfine → ℝ

/-- self.ds = L / N. -/
def ds (p : Params) : ℝ := p.L / p.N

/-- self.s = np.linspace(-L/2, L/2, N+1): the i-th grid point -L/2 + i·(L/N). -/
def sPt (p : Params) (i : ℕ) : ℝ := -p.L/2 + i * (p.L / p.N)

/-- self.s_mid = (s[:-1] + s[1:]) / 2. -/
def s_mid (p : Params) (i : ℕ) : ℝ := (sPt p i + sPt p (i+1)) / 2

/-- The mutable attributes of a TwoFilamentScallop instance. -/
structure State (p : Params) where
  t : ℝ
  x_hinge : ℝ
  U : ℝ
  theta1 : ℝ
  theta1_dot : ℝ
  theta2 : ℝ
  theta2_dot : ℝ
  p1 : Fin 3 → ℝ
  p2 : Fin 3 → ℝ
  r1 : Fin p.N → Fin 3 → ℝ
  r2 : Fin p.N → Fin 3 → ℝ
  r_hinge1 : Fin 3 → ℝ
  r_hinge2 : Fin 3 → ℝ

/-- Regularized Stokeslet kernel stokeslet_reg (Rigid_scallop.py, lines 10-34).
The numpy version is vectorised over N source points; this is the 3x3 block
for a single source point rsr and target point rtar, entry (i,j) exactly as
the source computes it componentwise. -/
def stokeslet_reg (rsr rtar : Fin 3 → ℝ) (delta : ℝ) : Matrix (Fin 3) (Fin 3) ℝ :=
  fun i j =>
    let R : Fin 3 → ℝ := fun k => rtar k - rsr k
    let Rsquare : ℝ := ∑ k, (R k)^2
    let Rabs_reg : ℝ := Real.sqrt (Rsquare + delta^2)
    (((Rsquare + 2*delta^2)/Rabs_reg^3) * (if i = j then 1 else 0)
      + R i * R j / Rabs_reg^3) / (8*Real.pi)

/-- update_geometry (Rigid_scallop.py, lines 76-95): recompute angles, angular
velocities, tangent vectors, the hinge x-coordinates and all segment midpoint
positions from the current time and hinge displacement.  Only component 0 of
each hinge vector is assigned by the source (r_hinge1[0] = x_hinge). -/
def update_geometry (p : Params) (st : State p) : State p :=
  let theta1 := p.theta_A * Real.sin (2*Real.pi*st.t/p.tau) + p.theta_0
  let theta1_dot := p.theta_A * (2*Real.pi/p.tau) * Real.cos (2*Real.pi*st.t/p.tau)
  let theta2 := -theta1
  let theta2_dot := -theta1_dot
  let p1 : Fin 3 → ℝ := ![Real.cos theta1, Real.sin theta1, 0]
  let p2 : Fin 3 → ℝ := ![Real.cos theta2, Real.sin theta2, 0]
  let rh1 := Function.update st.r_hinge1 0 st.x_hinge
  let rh2 := Function.update st.r_hinge2 0 st.x_hinge
  { st with
    theta1 := theta1, theta1_dot := theta1_dot,
    theta2 := theta2, theta2_dot := theta2_dot,
    p1 := p1, p2 := p2,
    r_hinge1 := rh1, r_hinge2 := rh2,
    r1 := fun i c => rh1 c + (s_mid p i + p.L/2) * p1 c,
    r2 := fun i c => rh2 c + (s_mid p i + p.L/2) * p2 c }

/-- __init__ (Rigid_scallop.py, lines 37-74): t = 0, x_hinge = 0, U = 0,
hinges at (0, ±5δ, 0), zeroed arrays, then a first update_geometry call.
(The angle/tangent placeholder fields are all overwritten by that call.) -/
def initState (p : Params) : State p :=
  update_geometry p
    { t := 0, x_hinge := 0, U := 0,
      theta1 := 0, theta1_dot := 0, theta2 := 0, theta2_dot := 0,
      p1 := fun _ => 0, p2 := fun _ => 0,
      r1 := fun _ _ => 0, r2 := fun _ _ => 0,
      r_hinge1 := ![0, 5*p.delta, 0],
      r_hinge2 := ![0, -(5*p.delta), 0] }

/-- The Python exceptions that construction can raise. -/
inductive PyError where
  | zeroDivisionError : PyError

/-- __init__ with its raising behaviour: the constructor contains no
parameter validation at all; the only parameter of the model that makes it
raise is N = 0, where self.ds = L / N raises ZeroDivisionError in Python
(ℝ-division by zero is total in the model, so the check is made explicit).
Every other tuple -- including delta ≤ 0, dt ≤ 0, T < dt, nfine = 0 --
constructs successfully. -/
def initChecked (p : Params) : Except PyError (State p) :=
  if p.N = 0 then .error .zeroDivisionError else .ok (initState p)

/-- Modelled from the spec: rescale from gaussxw.py (not in src/) affinely
maps the canonical Gauss-Legendre nodes on [-1,1] onto [a,b]:
node ↦ (b-a)/2 · node + (b+a)/2. -/
def rescaleNodes (p : Params) (a b : ℝ) : Fin p.nfine → ℝ :=
  fun k => (b-a)/2 * p.nodes k + (b+a)/2

/-- Modelled from the spec: rescale from gaussxw.py (not in src/) scales the
canonical Gauss-Legendre weights by the half-length of [a,b]. -/
def rescaleWeights (p : Params) (a b : ℝ) : Fin p.nfine → ℝ :=
  fun k => (b-a)/2 * p.weights k

/-- get_gauss_points (Rigid_scallop.py, lines 97-113): rescale the canonical
rule onto [s[j], s[j+1]] and map each rescaled node to the 3-D point
hinge + (node + L/2)·tangent of the requested filament. -/
def get_gauss_points (p : Params) (st : State p) (element_idx : ℕ) (fila_id : ℕ) :
    (Fin p.nfine → Fin 3 → ℝ) × (Fin p.nfine → ℝ) :=
  let a := sPt p element_idx
  let b := sPt p (element_idx + 1)
  let hinge := if fila_id = 1 then st.r_hinge1 else st.r_hinge2
  let tang := if fila_id = 1 then st.p1 else st.p2
  (fun k c => hinge c + (rescaleNodes p a b k + p.L/2) * tang c,
   rescaleWeights p a b)

/-- The mirror matrix M_mirror = np.diag([1,-1,1]) acting as a column sign:
(S @ M_mirror)[a,b] = S[a,b] · mirSign b. -/
def mirSign : Fin 3 → ℝ := ![1, -1, 1]

/-- One 3x3 block of the assembled matrix, for target segment i and source
segment j (Rigid_scallop.py, lines 124-137): the self-interaction of
filament 1 (np.sum(G · weights, axis=2), i.e. the quadrature-weighted kernel
sum over segment j's Gauss points) plus the cross-interaction of filament 2
post-multiplied by M_mirror. -/
def Ablock (p : Params) (st : State p) (i j : Fin p.N) (a b : Fin 3) : ℝ :=
  (∑ k, (get_gauss_points p st j 1).2 k *
      stokeslet_reg ((get_gauss_points p st j 1).1 k) (st.r1 i) p.delta a b)
  + (∑ k, (get_gauss_points p st j 2).2 k *
      stokeslet_reg ((get_gauss_points p st j 2).1 k) (st.r1 i) p.delta a b) * mirSign b

/-- The matrix self.lhs as left by form_linear_system (Rigid_scallop.py,
lines 115-151).  The source zeroes the matrix and then performs three fills
over pairwise disjoint index sets, so the result is given by cases:
* rows 3i+a and columns 3j+b with i,j < N (a,b < 3): the accumulated
  hydrodynamic blocks (lines 124-137);
* column 3N of rows 3i+a: the assignment lhs[3i, 3N] = -1 (lines 146-147)
  touches only a = 0, all other entries of that column stay 0;
* row 3N: the assignment lhs[3N, 3i] = ds (lines 150-151) touches only the
  x-columns 3i, the rest of the row (including entry (3N, 3N)) stays 0. -/
def lhs (p : Params) (st : State p) : Matrix (Fin (3*p.N+1)) (Fin (3*p.N+1)) ℝ :=
  fun r c =>
    if hr : (r : ℕ) < 3*p.N then
      if hc : (c : ℕ) < 3*p.N then
        Ablock p st ⟨(r : ℕ)/3, by omega⟩ ⟨(c : ℕ)/3, by omega⟩
          ⟨(r : ℕ) % 3, by omega⟩ ⟨(c : ℕ) % 3, by omega⟩
      else
        if (r : ℕ) % 3 = 0 then -1 else 0
    else
      if (c : ℕ) < 3*p.N then (if (c : ℕ) % 3 = 0 then ds p else 0) else 0

/-- The vector self.rhs as left by form_linear_system (Rigid_scallop.py,
lines 139-143): for target segment i = r/3 the prescribed rotational no-slip
velocity v_rot·(-sin θ1, cos θ1, 0) with v_rot = (s_mid[i] + L/2)·θ̇1; the
final entry (row 3N) is never written and stays 0. -/
def rhs (p : Params) (st : State p) : Fin (3*p.N+1) → ℝ :=
  fun r =>
    if (r : ℕ) < 3*p.N then
      let v_rot := (s_mid p ((r : ℕ)/3) + p.L/2) * st.theta1_dot
      if (r : ℕ) % 3 = 0 then v_rot * (-Real.sin st.theta1)
      else if (r : ℕ) % 3 = 1 then v_rot * Real.cos st.theta1
      else 0
    else 0

/-- solve_system (Rigid_scallop.py, lines 153-159): solve the assembled
system (scipy.linalg.solve, modelled as the matrix-inverse image of the
right-hand side, which is the unique solution whenever the matrix is
invertible), set U to solution component 3N, and advance the hinge
x-position by U·dt. -/
def solve_system (p : Params) (st : State p) : State p :=
  let results := (lhs p st)⁻¹.mulVec (rhs p st)
  let U := results ⟨3*p.N, by omega⟩
  { st with U := U, x_hinge := st.x_hinge + U * p.dt }

/-- step (Rigid_scallop.py, lines 161-165): update_geometry, then
form_linear_system (folded into the lhs/rhs functions above), then
solve_system. -/
def step (p : Params) (st : State p) : State p :=
  solve_system p (update_geometry p st)

/-- The state after k iterations of the simulate loop body (step, then
t += dt); iteration 0 is the freshly constructed state. -/
def iterate (p : Params) : ℕ → State p
  | 0 => initState p
  | k+1 =>
    let st1 := step p (iterate p (k : ℕ))
    { st1 with t := st1.t + p.dt }

/-- File events performed by simulate on its output file. -/
inductive Trace where
  | fopen : String → Trace
  | fwrite : ℝ → ℝ → ℝ → Trace
  | fclose : Trace

/-- The time field of a write event. -/
def writeTime : Trace → Option ℝ
  | .fwrite t _ _ => some t
  | _ => none

/-- The while-loop of simulate (Rigid_scallop.py, lines 172-180), run with
the given fuel bound on the iteration count (the Python loop is unbounded;
every run examined below terminates within its fuel): while t < T, step,
then (if savedata) write the line (t, U, x_hinge) -- t is the pre-advance
time, U and x_hinge the freshly solved values -- and finally t += dt. -/
def simLoop (p : Params) : ℕ → State p → Bool → State p × List Trace
  | 0, st, _ => (st, [])
  | fuel+1, st, sd =>
    if st.t < p.T then
      let st1 := step p st
      let rest := simLoop p fuel { st1 with t := st1.t + p.dt } sd
      (rest.1, (if sd then [Trace.fwrite st1.t st1.U st1.x_hinge] else []) ++ rest.2)
    else (st, [])

/-- simulate (Rigid_scallop.py, lines 167-184): if savedata, open the output
file, run the loop writing one line per step, and close the file; with
savedata = False no file event occurs at all. -/
def simulate (p : Params) (fuel : ℕ) (st : State p) (filename : String)
    (savedata : Bool) : State p × List Trace :=
  let r := simLoop p fuel st savedata
  (r.1, (if savedata then [Trace.fopen filename] else []) ++ r.2
        ++ (if savedata then [Trace.fclose] else []))

/-- The sequence of loop iteration start times: t, t+dt, t+2dt, ... as long
as they stay below T (and fuel lasts). -/
def stepTimes (dt T : ℝ) : ℕ → ℝ → List ℝ
  | 0, _ => []
  | fuel+1, t => if t < T then t :: stepTimes dt T fuel (t + dt) else []

/-! ### Shared helper lemmas -/

/-- step leaves the time field unchanged (only simulate advances t). -/
lemma step_t (p : Params) (st : State p) : (step p st).t = st.t := rfl

/-- The state after construction starts at time 0. -/
lemma initState_t (p : Params) : (initState p).t = 0 := rfl

/-- With zero oscillation amplitude the angular velocity computed by
update_geometry vanishes. -/
lemma update_theta1_dot_zero (p : Params) (st : State p) (hA : p.theta_A = 0) :
    (update_geometry p st).theta1_dot = 0 := by
  simp [update_geometry, hA]

/-- With zero oscillation amplitude the assembled right-hand side vanishes. -/
lemma rhs_update_zero (p : Params) (st : State p) (hA : p.theta_A = 0) :
    rhs p (update_geometry p st) = 0 := by
  funext r
  by_cases hr : (r : ℕ) < 3*p.N <;>
    simp [rhs, hr, update_theta1_dot_zero p st hA]

/-- A sum over range (3N) grouped into N triples. -/
lemma sum_range_three_mul (g : ℕ → ℝ) (N : ℕ) :
    ∑ c ∈ Finset.range (3*N), g c
      = ∑ i ∈ Finset.range N, (g (3*i) + g (3*i+1) + g (3*i+2)) := by
  induction N with
  | zero => simp
  | succ n ih =>
      have h3 : 3*(n+1) = (3*n+2)+1 := by omega
      have h2 : 3*n+2 = (3*n+1)+1 := by omega
      have h1 : 3*n+1 = (3*n)+1 := rfl
      rw [h3, Finset.sum_range_succ, h2, Finset.sum_range_succ, h1,
        Finset.sum_range_succ, ih, Finset.sum_range_succ]
      ring

/-! ### C7: reciprocity of the regularized Stokeslet -/

/-- C7: for every target point, source point and δ > 0, the regularized
Stokeslet block computed with target and source swapped equals the transpose
of the block computed in the original order, and each block equals its own
transpose. -/
theorem c7_stokeslet_reciprocity (rsr rtar : Fin 3 → ℝ) (delta : ℝ)
    (hdelta : 0 < delta) :
    stokeslet_reg rtar rsr delta = (stokeslet_reg rsr rtar delta).transpose
    ∧ (stokeslet_reg rsr rtar delta).transpose = stokeslet_reg rsr rtar delta := by
  have hsq : (∑ k, (rsr k - rtar k)^2) = ∑ k, (rtar k - rsr k)^2 :=
    Finset.sum_congr rfl (fun k _ => by ring)
  constructor
  · ext i j
    simp only [stokeslet_reg, Matrix.transpose_apply]
    rw [hsq]
    by_cases h : i = j
    · subst h; simp only [if_pos rfl]; ring
    · rw [if_neg h, if_neg (fun h' => h h'.symm)]; ring
  · ext i j
    simp only [stokeslet_reg, Matrix.transpose_apply]
    by_cases h : i = j
    · subst h; ring
    · rw [if_neg h, if_neg (fun h' => h h'.symm)]; ring

/-- Witness for C7 at concrete points and δ = 1. -/
theorem c7_stokeslet_reciprocity_witness :
    stokeslet_reg ![0, 2, 0] ![1, 0, 0] 1
        = (stokeslet_reg ![1, 0, 0] ![0, 2, 0] 1).transpose
    ∧ (stokeslet_reg ![1, 0, 0] ![0, 2, 0] 1).transpose
        = stokeslet_reg ![1, 0, 0] ![0, 2, 0] 1 :=
  c7_stokeslet_reciprocity ![1, 0, 0] ![0, 2, 0] 1 (by norm_num)

/-! ### C5: the geometry update -/

/-- C5: update_geometry computes θ1 = θ_A·sin(2πt/τ) + θ_0 and
θ̇1 = θ_A·(2π/τ)·cos(2πt/τ), sets θ2 = -θ1 and θ̇2 = -θ̇1 exactly, derives
the tangents p_k = (cos θ_k, sin θ_k, 0), puts the hinge x-coordinates at
the current rigid-body displacement, and sets every segment midpoint of
filament k to hinge_k + (s_mid + L/2)·p_k. -/
theorem c5_update_geometry (p : Params) (st : State p) :
    (update_geometry p st).theta1
        = p.theta_A * Real.sin (2*Real.pi*st.t/p.tau) + p.theta_0
    ∧ (update_geometry p st).theta1_dot
        = p.theta_A * (2*Real.pi/p.tau) * Real.cos (2*Real.pi*st.t/p.tau)
    ∧ (update_geometry p st).theta2 = -(update_geometry p st).theta1
    ∧ (update_geometry p st).theta2_dot = -(update_geometry p st).theta1_dot
    ∧ (update_geometry p st).p1
        = ![Real.cos (update_geometry p st).theta1,
            Real.sin (update_geometry p st).theta1, 0]
    ∧ (update_geometry p st).p2
        = ![Real.cos (update_geometry p st).theta2,
            Real.sin (update_geometry p st).theta2, 0]
    ∧ (update_geometry p st).r_hinge1 0 = st.x_hinge
    ∧ (update_geometry p st).r_hinge2 0 = st.x_hinge
    ∧ (∀ i : Fin p.N, ∀ ci : Fin 3,
        (update_geometry p st).r1 i ci
          = (update_geometry p st).r_hinge1 ci
            + (s_mid p i + p.L/2) * (update_geometry p st).p1 ci)
    ∧ (∀ i : Fin p.N, ∀ ci : Fin 3,
        (update_geometry p st).r2 i ci
          = (update_geometry p st).r_hinge2 ci
            + (s_mid p i + p.L/2) * (update_geometry p st).p2 ci) := by
  refine ⟨rfl, rfl, rfl, rfl, rfl, rfl, ?_, ?_, fun i ci => rfl, fun i ci => rfl⟩ <;>
    simp [update_geometry]

/-! ### Concrete configurations used by witnesses and counterexamples -/

/-- A small valid configuration with zero oscillation amplitude:
one segment, one quadrature node (the midpoint rule ![0], ![2], which is the
order-1 Gauss-Legendre rule), unit length scales. -/
def cp0 : Params :=
  { theta_A := 0, theta_0 := 0, N := 1, L := 1, dt := 1, T := 1, tau := 1,
    delta := 1, nfine := 1, nodes := ![0], weights := ![2] }

/-- A configuration that is invalid according to the spec (dt = -1 ≤ 0)
but on which the constructor raises nothing. -/
def cpBad : Params :=
  { theta_A := 1, theta_0 := 1, N := 1, L := 1, dt := -1, T := 1, tau := 1,
    delta := 0.01, nfine := 1, nodes := ![0], weights := ![2] }

/-! ### Loop lemmas -/

/-- With savedata = False the loop performs no file event. -/
lemma simLoop_false_trace (p : Params) :
    ∀ fuel (st : State p), (simLoop p fuel st false).2 = [] := by
  intro fuel
  induction fuel with
  | zero => intro st; rfl
  | succ f ih =>
      intro st
      by_cases h : st.t < p.T
      · simp [simLoop, if_pos h, ih]
      · simp [simLoop, if_neg h]

/-- The state computed by the loop does not depend on the savedata flag. -/
lemma simLoop_state_indep (p : Params) :
    ∀ fuel (st : State p) (sd sd' : Bool),
      (simLoop p fuel st sd).1 = (simLoop p fuel st sd').1 := by
  intro fuel
  induction fuel with
  | zero => intro st sd sd'; rfl
  | succ f ih =>
      intro st sd sd'
      by_cases h : st.t < p.T
      · simp only [simLoop, if_pos h]; exact ih _ sd sd'
      · simp only [simLoop, if_neg h]

/-- With savedata = True the times written by the loop are the loop
iteration start times. -/
lemma simLoop_writeTimes (p : Params) :
    ∀ fuel (st : State p),
      (simLoop p fuel st true).2.filterMap writeTime
        = stepTimes p.dt p.T fuel st.t := by
  intro fuel
  induction fuel with
  | zero => intro st; rfl
  | succ f ih =>
      intro st
      by_cases h : st.t < p.T
      · simp only [simLoop, if_pos h, stepTimes, if_true, List.filterMap_append,
          List.filterMap_cons, List.filterMap_nil, writeTime]
        rw [ih]
        simp [step_t]
      · simp [simLoop, if_neg h, stepTimes, h]

/-- With savedata = True the loop writes one line per executed iteration. -/
lemma simLoop_length (p : Params) :
    ∀ fuel (st : State p),
      (simLoop p fuel st true).2.length
        = (stepTimes p.dt p.T fuel st.t).length := by
  intro fuel
  induction fuel with
  | zero => intro st; rfl
  | succ f ih =>
      intro st
      by_cases h : st.t < p.T
      · simp only [simLoop, if_pos h, stepTimes, if_true, List.length_append,
          List.length_cons, List.length_nil]
        rw [ih]
        simp [step_t]
        omega
      · simp [simLoop, if_neg h, stepTimes, h]

/-! ### C3: zero amplitude gives zero translation speed -/

/-- C3: with oscillation amplitude θ_A = 0 the assembled right-hand side is
the zero vector at every step of the run, and the translation speed solved
at every step is 0.  (iterate k is the state after k iterations of the
simulate loop body; the solved speed needs no invertibility hypothesis here
because the model's solve maps the zero right-hand side to the zero
solution, exactly as the unique solution of an invertible system does.) -/
theorem c3_no_oscillation_no_translation (p : Params) (hA : p.theta_A = 0)
    (k : ℕ) :
    rhs p (update_geometry p (iterate p k)) = 0
    ∧ (iterate p (k+1)).U = 0 := by
  have hz := rhs_update_zero p (iterate p k) hA
  refine ⟨hz, ?_⟩
  show (step p (iterate p k)).U = 0
  simp only [step, solve_system, hz, Matrix.mulVec_zero]
  rfl

/-- Witness for C3: in the concrete amplitude-zero configuration cp0 the
first solved translation speed is 0. -/
theorem c3_no_oscillation_no_translation_witness : (iterate cp0 1).U = 0 :=
  (c3_no_oscillation_no_translation cp0 rfl 0).2

/-! ### C4: the step/loop contract -/

/-- C4: a step leaves t unchanged, sets U to component 3N of the solution of
the freshly assembled system, and advances the hinge by U·dt; in the
simulate loop, when t < T, the step executes, the output line (t, U,
hinge-x) is appended with the pre-advance t, and only then the loop
continues from t + dt. -/
theorem c4_step_contract (p : Params) (st : State p) (fuel : ℕ)
    (h : st.t < p.T) :
    (step p st).t = st.t
    ∧ (step p st).U
        = ((lhs p (update_geometry p st))⁻¹.mulVec
            (rhs p (update_geometry p st))) ⟨3*p.N, by omega⟩
    ∧ (step p st).x_hinge = st.x_hinge + (step p st).U * p.dt
    ∧ simLoop p (fuel+1) st true
        = ((simLoop p fuel { step p st with t := (step p st).t + p.dt } true).1,
            Trace.fwrite st.t (step p st).U (step p st).x_hinge ::
              (simLoop p fuel { step p st with t := (step p st).t + p.dt } true).2) := by
  refine ⟨rfl, rfl, rfl, ?_⟩
  simp only [simLoop, if_pos h, if_true, List.singleton_append]
  rw [step_t]

/-- Witness for C4 at the concrete configuration cp0 (whose initial time 0
is below T = 1). -/
theorem c4_step_contract_witness :
    (step cp0 (initState cp0)).t = (initState cp0).t
    ∧ (step cp0 (initState cp0)).x_hinge
        = (initState cp0).x_hinge + (step cp0 (initState cp0)).U * cp0.dt :=
  ⟨(c4_step_contract cp0 (initState cp0) 0 (by norm_num : (0:ℝ) < 1)).1,
   (c4_step_contract cp0 (initState cp0) 0 (by norm_num : (0:ℝ) < 1)).2.2.1⟩

/-! ### C10: savedata has no influence on the physics -/

/-- C10: a run with savedata = False performs no file event at all, and for
every fuel bound the state reached is identical to the state reached by the
savedata = True run of the same configuration (so the whole state
trajectory, hence every (t, U, x_hinge) after every step, agrees). -/
theorem c10_savedata_independent (p : Params) (fuel : ℕ) (st : State p)
    (filename : String) :
    (simulate p fuel st filename false).2 = []
    ∧ (simulate p fuel st filename true).1 = (simulate p fuel st filename false).1 := by
  constructor
  · simp [simulate, simLoop_false_trace]
  · simp only [simulate]
    exact simLoop_state_indep p fuel st true false

/-! ### C2: there is no pre-flight validation -/

/-- Counterexample to C2: cpBad has dt = -1 ≤ 0, an invalid configuration
according to the claim, yet the constructor succeeds without any error and
the first loop iteration runs and produces an output line. -/
theorem c2_counterexample :
    cpBad.dt ≤ 0
    ∧ initChecked cpBad = .ok (initState cpBad)
    ∧ (simLoop cpBad 1 (initState cpBad) true).2.length = 1 := by
  refine ⟨by norm_num [cpBad], by simp [initChecked, cpBad], ?_⟩
  rw [simLoop_length, initState_t]
  norm_num [stepTimes, cpBad]

/-- C2 amended: the constructor performs no parameter validation; for every
configuration with N ≠ 0 -- including ones with δ ≤ 0, dt ≤ 0, T < dt or
nfine = 0 -- construction succeeds without error, and whenever T > 0 the
loop executes at least one step and produces output.  (Only N = 0 makes the
constructor raise, through the incidental ZeroDivisionError in ds = L/N,
not through a pre-flight check.) -/
theorem c2_no_validation (p : Params) (hN : p.N ≠ 0) (hT : (0:ℝ) < p.T)
    (fuel : ℕ) (hf : 0 < fuel) :
    initChecked p = .ok (initState p)
    ∧ (simLoop p fuel (initState p) true).2 ≠ [] := by
  refine ⟨by simp [initChecked, hN], ?_⟩
  obtain ⟨f, rfl⟩ : ∃ f, fuel = f + 1 := ⟨fuel - 1, by omega⟩
  have h : (initState p).t < p.T := by rw [initState_t]; exact hT
  simp [simLoop, if_pos h]

/-- Witness for the amended C2 at the concrete invalid configuration cpBad. -/
theorem c2_no_validation_witness :
    initChecked cpBad = .ok (initState cpBad)
    ∧ (simLoop cpBad 1 (initState cpBad) true).2 ≠ [] :=
  c2_no_validation cpBad (by norm_num [cpBad]) (by norm_num : (0:ℝ) < 1) 1
    (by norm_num)

/-! ### C1: the translation column of the assembled matrix -/

/-- Counterexample to C1: in the concrete configuration cp0 (N = 1), row 1
-- the y-component row of target segment 0, a non-final row -- has entry 0,
not -1, in the last column of the assembled matrix. -/
theorem c1_counterexample :
    lhs cp0 (initState cp0) ⟨1, by norm_num [cp0]⟩ ⟨3, by norm_num [cp0]⟩ ≠ -1 := by
  have h : lhs cp0 (initState cp0) ⟨1, by norm_num [cp0]⟩ ⟨3, by norm_num [cp0]⟩ = 0 := by
    simp [lhs, cp0]
  rw [h]
  norm_num

/-- C1 amended: the -1 coefficient coupling the no-slip rows to the
rigid-translation unknown sits only in the x-component row of each target
segment: for every segment i, entry (3i, 3N) of the assembled matrix is -1
while entries (3i+1, 3N) and (3i+2, 3N) are 0. -/
theorem c1_translation_column (p : Params) (st : State p) (i : Fin p.N) :
    lhs p st ⟨3*(i:ℕ), by have := i.isLt; omega⟩ ⟨3*p.N, by omega⟩ = -1
    ∧ lhs p st ⟨3*(i:ℕ)+1, by have := i.isLt; omega⟩ ⟨3*p.N, by omega⟩ = 0
    ∧ lhs p st ⟨3*(i:ℕ)+2, by have := i.isLt; omega⟩ ⟨3*p.N, by omega⟩ = 0 := by
  have hi := i.isLt
  refine ⟨?_, ?_, ?_⟩
  · show (if hr : 3*(i:ℕ) < 3*p.N then _ else _) = (-1 : ℝ)
    rw [dif_pos (show 3*(i:ℕ) < 3*p.N by omega)]
    rw [dif_neg (show ¬ ((⟨3*p.N, by omega⟩ : Fin (3*p.N+1)) : ℕ) < 3*p.N by simp)]
    rw [if_pos (show 3*(i:ℕ) % 3 = 0 by omega)]
  · show (if hr : 3*(i:ℕ)+1 < 3*p.N then _ else _) = (0 : ℝ)
    rw [dif_pos (show 3*(i:ℕ)+1 < 3*p.N by omega)]
    rw [dif_neg (show ¬ ((⟨3*p.N, by omega⟩ : Fin (3*p.N+1)) : ℕ) < 3*p.N by simp)]
    rw [if_neg (show ¬ (3*(i:ℕ)+1) % 3 = 0 by omega)]
  · show (if hr : 3*(i:ℕ)+2 < 3*p.N then _ else _) = (0 : ℝ)
    rw [dif_pos (show 3*(i:ℕ)+2 < 3*p.N by omega)]
    rw [dif_neg (show ¬ ((⟨3*p.N, by omega⟩ : Fin (3*p.N+1)) : ℕ) < 3*p.N by simp)]
    rw [if_neg (show ¬ (3*(i:ℕ)+2) % 3 = 0 by omega)]

/-! ### C8: the end-to-end scenario -/

/-- The configuration of the end-to-end scenario: θ_A = 1, θ_0 = 1, N = 100,
L = 1, dt = 0.002, T = 0.01, τ = 1, δ = 0.01, nfine = 6; the canonical
Gauss-Legendre table (gaussxw is not in src/) is left abstract, the claim
does not depend on it. -/
def c8Params (nodes weights : Fin 6 → ℝ) : Params :=
  { theta_A := 1, theta_0 := 1, N := 100, L := 1, dt := 0.002, T := 0.01,
    tau := 1, delta := 0.01, nfine := 6, nodes := nodes, weights := weights }

/-- C8: running simulate on the end-to-end configuration with savedata
writes exactly 5 output lines between opening and closing the file, each a
3-field (time, U, hinge-x) record, with times exactly 0, 0.002, 0.004,
0.006, 0.008, strictly increasing.  (Real-number model: every produced U
and hinge-x value is a real number; the decimal rendering of the fields is
fixed by the single format string of the source and outside the embedding.) -/
theorem c8_end_to_end (nodes weights : Fin 6 → ℝ) (filename : String) :
    ∃ ws : List Trace,
      (simulate (c8Params nodes weights) 6 (initState (c8Params nodes weights))
          filename true).2
        = Trace.fopen filename :: (ws ++ [Trace.fclose])
      ∧ ws.length = 5
      ∧ ws.filterMap writeTime = [0, 0.002, 0.004, 0.006, 0.008]
      ∧ List.Chain' (· < ·) (ws.filterMap writeTime) := by
  refine ⟨(simLoop (c8Params nodes weights) 6
      (initState (c8Params nodes weights)) true).2, ?_, ?_, ?_, ?_⟩
  · simp [simulate]
  · rw [simLoop_length, initState_t]
    norm_num [stepTimes, c8Params]
  · rw [simLoop_writeTimes, initState_t]
    norm_num [stepTimes, c8Params]
  · rw [simLoop_writeTimes, initState_t]
    norm_num [stepTimes, c8Params, List.chain'_cons]

/-! ### C6: the force-free final row -/

/-- Row 3N of the matrix applied to any vector is the weighted sum of the
x-components: (lhs · x)(3N) = Σ_i ds · x(3i). -/
lemma mulVec_last_row (p : Params) (st : State p) (x : Fin (3*p.N+1) → ℝ) :
    ((lhs p st).mulVec x) ⟨3*p.N, by omega⟩
      = ∑ i : Fin p.N, ds p * x ⟨3*(i:ℕ), by have := i.isLt; omega⟩ := by
  classical
  set x' : ℕ → ℝ := fun m => if h : m < 3*p.N+1 then x ⟨m, h⟩ else 0 with hx'
  have hx'eq : ∀ (m : ℕ) (h : m < 3*p.N+1), x' m = x ⟨m, h⟩ := by
    intro m h; simp [hx', dif_pos h]
  have hrow : ∀ cFin : Fin (3*p.N+1),
      lhs p st ⟨3*p.N, by omega⟩ cFin
        = if (cFin : ℕ) < 3*p.N then (if (cFin : ℕ) % 3 = 0 then ds p else 0) else 0 := by
    intro cFin
    show (if hr : 3*p.N < 3*p.N then _ else _) = _
    rw [dif_neg (lt_irrefl _)]
  have step1 : ((lhs p st).mulVec x) ⟨3*p.N, by omega⟩
      = ∑ cFin : Fin (3*p.N+1),
          (if (cFin : ℕ) < 3*p.N then (if (cFin : ℕ) % 3 = 0 then ds p else 0) else 0)
            * x cFin := by
    simp only [Matrix.mulVec, Matrix.dotProduct]
    exact Finset.sum_congr rfl (fun cFin _ => by simp only [hrow])
  rw [step1, Fin.sum_univ_castSucc]
  have hlast : (if ((Fin.last (3*p.N) : Fin (3*p.N+1)) : ℕ) < 3*p.N then
        (if ((Fin.last (3*p.N) : Fin (3*p.N+1)) : ℕ) % 3 = 0 then ds p else 0) else 0)
      * x (Fin.last (3*p.N)) = 0 := by
    rw [if_neg (by simp [Fin.last])]
    ring
  rw [hlast, add_zero]
  have step2 : ∑ cFin : Fin (3*p.N),
      (if ((cFin.castSucc : Fin (3*p.N+1)) : ℕ) < 3*p.N then
        (if ((cFin.castSucc : Fin (3*p.N+1)) : ℕ) % 3 = 0 then ds p else 0) else 0)
        * x cFin.castSucc
      = ∑ m ∈ Finset.range (3*p.N),
          (if m % 3 = 0 then ds p * x' m else 0) := by
    have hcast : ∀ cFin : Fin (3*p.N), x' (cFin : ℕ) = x cFin.castSucc := by
      intro cFin
      rw [hx'eq (cFin : ℕ) (by omega)]
      exact congrArg x (Fin.ext rfl)
    rw [← Fin.sum_univ_eq_sum_range (fun m => if m % 3 = 0 then ds p * x' m else 0) (3*p.N)]
    refine Finset.sum_congr rfl (fun cFin _ => ?_)
    have hc : (cFin : ℕ) < 3*p.N := cFin.isLt
    rw [if_pos (by simpa using hc)]
    have hcs : ((cFin.castSucc : Fin (3*p.N+1)) : ℕ) = (cFin : ℕ) := rfl
    rw [hcs]
    by_cases hmod : (cFin : ℕ) % 3 = 0
    · rw [if_pos hmod, if_pos hmod, hcast cFin]
    · rw [if_neg hmod, if_neg hmod]; ring
  rw [step2, sum_range_three_mul (fun m => if m % 3 = 0 then ds p * x' m else 0) p.N]
  rw [← Fin.sum_univ_eq_sum_range (fun i =>
      (if (3*i) % 3 = 0 then ds p * x' (3*i) else 0)
      + (if (3*i+1) % 3 = 0 then ds p * x' (3*i+1) else 0)
      + (if (3*i+2) % 3 = 0 then ds p * x' (3*i+2) else 0)) p.N]
  refine Finset.sum_congr rfl (fun i _ => ?_)
  have hi := i.isLt
  rw [if_pos (by omega : (3*(i:ℕ)) % 3 = 0),
    if_neg (by omega : ¬ (3*(i:ℕ)+1) % 3 = 0),
    if_neg (by omega : ¬ (3*(i:ℕ)+2) % 3 = 0),
    hx'eq (3*(i:ℕ)) (by omega)]
  ring

/-- C6: after every assembly the final row encodes the force-free constraint
on the x-direction only -- entry (3N, 3j) is ds, entries (3N, 3j+1),
(3N, 3j+2) and (3N, 3N) are 0, the final right-hand-side entry is 0 -- and
consequently any exact solution x of the system satisfies
Σ_i ds · x(3i) = 0 (the x-force densities integrate to zero). -/
theorem c6_force_free_row (p : Params) (st : State p) (j : Fin p.N)
    (x : Fin (3*p.N+1) → ℝ) (hx : (lhs p st).mulVec x = rhs p st) :
    lhs p st ⟨3*p.N, by omega⟩ ⟨3*(j:ℕ), by have := j.isLt; omega⟩ = ds p
    ∧ lhs p st ⟨3*p.N, by omega⟩ ⟨3*(j:ℕ)+1, by have := j.isLt; omega⟩ = 0
    ∧ lhs p st ⟨3*p.N, by omega⟩ ⟨3*(j:ℕ)+2, by have := j.isLt; omega⟩ = 0
    ∧ lhs p st ⟨3*p.N, by omega⟩ ⟨3*p.N, by omega⟩ = 0
    ∧ rhs p st ⟨3*p.N, by omega⟩ = 0
    ∧ ∑ i : Fin p.N, ds p * x ⟨3*(i:ℕ), by have := i.isLt; omega⟩ = 0 := by
  have hj := j.isLt
  have hrhs : rhs p st ⟨3*p.N, by omega⟩ = 0 := by
    simp [rhs]
  refine ⟨?_, ?_, ?_, ?_, hrhs, ?_⟩
  · show (if hr : 3*p.N < 3*p.N then _ else _) = ds p
    rw [dif_neg (lt_irrefl _)]
    rw [if_pos (show 3*(j:ℕ) < 3*p.N by omega)]
    rw [if_pos (show (3*(j:ℕ)) % 3 = 0 by omega)]
  · show (if hr : 3*p.N < 3*p.N then _ else _) = (0:ℝ)
    rw [dif_neg (lt_irrefl _)]
    rw [if_pos (show 3*(j:ℕ)+1 < 3*p.N by omega)]
    rw [if_neg (show ¬ (3*(j:ℕ)+1) % 3 = 0 by omega)]
  · show (if hr : 3*p.N < 3*p.N then _ else _) = (0:ℝ)
    rw [dif_neg (lt_irrefl _)]
    rw [if_pos (show 3*(j:ℕ)+2 < 3*p.N by omega)]
    rw [if_neg (show ¬ (3*(j:ℕ)+2) % 3 = 0 by omega)]
  · show (if hr : 3*p.N < 3*p.N then _ else _) = (0:ℝ)
    rw [dif_neg (lt_irrefl _)]
    rw [if_neg (lt_irrefl _)]
  · rw [← mulVec_last_row p st x, hx, hrhs]

/-- Witness for C6: in the amplitude-zero configuration cp0 the zero vector
solves the assembled system (its right-hand side vanishes), and the final
right-hand-side entry is 0. -/
theorem c6_force_free_row_witness :
    rhs cp0 (update_geometry cp0 (initState cp0)) ⟨3*cp0.N, by omega⟩ = 0 :=
  (c6_force_free_row cp0 (update_geometry cp0 (initState cp0))
    ⟨0, by norm_num [cp0]⟩ 0
    (by rw [Matrix.mulVec_zero, rhs_update_zero cp0 (initState cp0) rfl])).2.2.2.2.1

/-! ### C9: exactness of the rescaled quadrature rule -/

/-- C9: for every segment index and filament id, the quadrature weights
returned by get_gauss_points sum exactly to the length s[j+1] - s[j] of the
segment's arclength sub-interval, and more generally the rescaled rule
integrates polynomials exactly up to the canonical rule's intrinsic degree
2·nfine - 1 (the hypothesis hcanon is the defining exactness of the
canonical Gauss-Legendre table on [-1,1], stated on monomials). -/
theorem c9_quadrature_exact (p : Params) (st : State p)
    (hcanon : ∀ l : ℕ, l ≤ 2*p.nfine - 1 →
      (∑ k, p.weights k * p.nodes k ^ l) = ∫ u in (-1:ℝ)..1, u ^ l)
    (element_idx fila_id d : ℕ) (hd : d ≤ 2*p.nfine - 1) (c : ℕ → ℝ) :
    (∑ k, (get_gauss_points p st element_idx fila_id).2 k)
        = sPt p (element_idx+1) - sPt p element_idx
    ∧ (∑ k, (get_gauss_points p st element_idx fila_id).2 k
          * (∑ m ∈ Finset.range (d+1),
              c m * rescaleNodes p (sPt p element_idx) (sPt p (element_idx+1)) k ^ m))
        = ∫ u in (sPt p element_idx)..(sPt p (element_idx+1)),
            ∑ m ∈ Finset.range (d+1), c m * u ^ m := by
  set a := sPt p element_idx with ha
  set b := sPt p (element_idx+1) with hb
  have hw : ∀ k, (get_gauss_points p st element_idx fila_id).2 k
      = (b-a)/2 * p.weights k := fun k => rfl
  have hn : ∀ k, rescaleNodes p a b k = (b-a)/2 * p.nodes k + (b+a)/2 :=
    fun k => rfl
  set α := (b-a)/2 with hα
  set β := (b+a)/2 with hβ
  have key : ∀ (d' : ℕ), d' ≤ 2*p.nfine - 1 → ∀ (c' : ℕ → ℝ),
      (∑ k, (α * p.weights k)
          * (∑ m ∈ Finset.range (d'+1), c' m * (α * p.nodes k + β) ^ m))
        = ∫ u in a..b, ∑ m ∈ Finset.range (d'+1), c' m * u ^ m := by
    intro d' hd' c'
    have hend1 : α * (-1) + β = a := by rw [hα, hβ]; ring
    have hend2 : α * 1 + β = b := by rw [hα, hβ]; ring
    have hchange : (∫ u in a..b, ∑ m ∈ Finset.range (d'+1), c' m * u ^ m)
        = α • ∫ u in (-1:ℝ)..1, ∑ m ∈ Finset.range (d'+1), c' m * (α * u + β) ^ m := by
      rw [intervalIntegral.smul_integral_comp_mul_add
            (fun u => ∑ m ∈ Finset.range (d'+1), c' m * u ^ m) α β, hend1, hend2]
    have expand : ∀ v : ℝ,
        (∑ m ∈ Finset.range (d'+1), c' m * (α * v + β) ^ m)
          = ∑ m ∈ Finset.range (d'+1), ∑ l ∈ Finset.range (m+1),
              c' m * (m.choose l : ℝ) * α ^ l * β ^ (m - l) * v ^ l := by
      intro v
      refine Finset.sum_congr rfl (fun m _ => ?_)
      rw [add_pow, Finset.mul_sum]
      refine Finset.sum_congr rfl (fun l _ => ?_)
      rw [mul_pow]
      ring
    have hInt : (∫ u in (-1:ℝ)..1, ∑ m ∈ Finset.range (d'+1), c' m * (α * u + β) ^ m)
        = ∑ m ∈ Finset.range (d'+1), ∑ l ∈ Finset.range (m+1),
            c' m * (m.choose l : ℝ) * α ^ l * β ^ (m - l) * ∫ u in (-1:ℝ)..1, u ^ l := by
      have e1 : (∫ u in (-1:ℝ)..1, ∑ m ∈ Finset.range (d'+1), c' m * (α * u + β) ^ m)
          = ∫ u in (-1:ℝ)..1, ∑ m ∈ Finset.range (d'+1), ∑ l ∈ Finset.range (m+1),
              c' m * (m.choose l : ℝ) * α ^ l * β ^ (m - l) * u ^ l :=
        intervalIntegral.integral_congr (fun u _ => expand u)
      rw [e1]
      rw [intervalIntegral.integral_finset_sum (fun m _ =>
        Continuous.intervalIntegrable
          (continuous_finset_sum _ (fun l _ => continuous_const.mul (continuous_pow l)))
          (-1) 1)]
      refine Finset.sum_congr rfl (fun m _ => ?_)
      rw [intervalIntegral.integral_finset_sum (fun l _ =>
        Continuous.intervalIntegrable (continuous_const.mul (continuous_pow l)) (-1) 1)]
      refine Finset.sum_congr rfl (fun l _ => ?_)
      rw [intervalIntegral.integral_const_mul]
    have hsum : (∑ k, p.weights k
          * (∑ m ∈ Finset.range (d'+1), c' m * (α * p.nodes k + β) ^ m))
        = ∫ u in (-1:ℝ)..1, ∑ m ∈ Finset.range (d'+1), c' m * (α * u + β) ^ m := by
      rw [hInt]
      calc ∑ k, p.weights k * (∑ m ∈ Finset.range (d'+1), c' m * (α * p.nodes k + β) ^ m)
          = ∑ k, ∑ m ∈ Finset.range (d'+1), ∑ l ∈ Finset.range (m+1),
              c' m * (m.choose l : ℝ) * α ^ l * β ^ (m - l)
                * (p.weights k * p.nodes k ^ l) := by
            refine Finset.sum_congr rfl (fun k _ => ?_)
            rw [expand (p.nodes k), Finset.mul_sum]
            refine Finset.sum_congr rfl (fun m _ => ?_)
            rw [Finset.mul_sum]
            refine Finset.sum_congr rfl (fun l _ => ?_)
            ring
        _ = ∑ m ∈ Finset.range (d'+1), ∑ l ∈ Finset.range (m+1),
              c' m * (m.choose l : ℝ) * α ^ l * β ^ (m - l)
                * (∑ k, p.weights k * p.nodes k ^ l) := by
            rw [Finset.sum_comm]
            refine Finset.sum_congr rfl (fun m _ => ?_)
            rw [Finset.sum_comm]
            refine Finset.sum_congr rfl (fun l _ => ?_)
            rw [← Finset.mul_sum]
        _ = ∑ m ∈ Finset.range (d'+1), ∑ l ∈ Finset.range (m+1),
              c' m * (m.choose l : ℝ) * α ^ l * β ^ (m - l)
                * ∫ u in (-1:ℝ)..1, u ^ l := by
            refine Finset.sum_congr rfl (fun m hm => ?_)
            refine Finset.sum_congr rfl (fun l hl => ?_)
            have hmd : m ≤ d' := by
              have := Finset.mem_range.mp hm; omega
            have hlm : l ≤ m := by
              have := Finset.mem_range.mp hl; omega
            rw [hcanon l (by omega)]
    have hpull : (∑ k, (α * p.weights k)
          * (∑ m ∈ Finset.range (d'+1), c' m * (α * p.nodes k + β) ^ m))
        = α * ∑ k, p.weights k
            * (∑ m ∈ Finset.range (d'+1), c' m * (α * p.nodes k + β) ^ m) := by
      rw [Finset.mul_sum]
      refine Finset.sum_congr rfl (fun k _ => ?_)
      ring
    rw [hpull, hsum, hchange, smul_eq_mul]
  have key0 := key 0 (Nat.zero_le _) (fun _ => 1)
  have keyd := key d hd c
  constructor
  · simp only [zero_add, Finset.sum_range_one, pow_zero, mul_one, one_mul] at key0
    rw [intervalIntegral.integral_const, smul_eq_mul, mul_one] at key0
    calc (∑ k, (get_gauss_points p st element_idx fila_id).2 k)
        = ∑ k, α * p.weights k := Finset.sum_congr rfl (fun k _ => hw k)
      _ = b - a := key0
  · calc (∑ k, (get_gauss_points p st element_idx fila_id).2 k
            * (∑ m ∈ Finset.range (d+1), c m * rescaleNodes p a b k ^ m))
        = ∑ k, (α * p.weights k)
            * (∑ m ∈ Finset.range (d+1), c m * (α * p.nodes k + β) ^ m) := by
          refine Finset.sum_congr rfl (fun k _ => ?_)
          rw [hw k]
          refine congrArg _ (Finset.sum_congr rfl (fun m _ => ?_))
          rw [hn k]
      _ = ∫ u in a..b, ∑ m ∈ Finset.range (d+1), c m * u ^ m := keyd

/-- The canonical order-1 Gauss-Legendre rule (node 0, weight 2) used by the
witness configuration cp0 integrates monomials exactly up to degree 1. -/
lemma canon_one_exact : ∀ l : ℕ, l ≤ 2*(1:ℕ) - 1 →
    (∑ k : Fin 1, (![2] : Fin 1 → ℝ) k * (![0] : Fin 1 → ℝ) k ^ l)
      = ∫ u in (-1:ℝ)..1, u ^ l := by
  intro l hl
  interval_cases l <;>
    · rw [integral_pow]
      norm_num

/-- Witness for C9 at the concrete configuration cp0 (one segment, the
order-1 canonical rule): the returned weights sum to the sub-interval
length. -/
theorem c9_quadrature_exact_witness :
    (∑ k, (get_gauss_points cp0 (initState cp0) 0 1).2 k)
      = sPt cp0 (0+1) - sPt cp0 0 :=
  (c9_quadrature_exact cp0 (initState cp0) canon_one_exact 0 1 1
    (by norm_num [cp0]) (fun _ => 1)).1

end Scallop
